import Mathlib

/-! Verification of the secret value model of the `secrets-js` repository.

The development shallowly embeds the TypeScript sources:

* `src/utils/safe-secret-fields.ts` — the Safe-Field Redactor (`toSafeSecretFields` / `pick`);
* `src/utils/secret-content.ts`     — the Content Classifier (`getSecretContent`);
* `src/utils/secret-copier.ts`      — `deepCopySecretValueCommandOutput`;
* `src/errors.ts`                   — the error taxonomy;
* `src/secret-value.ts`             — the `SecretValue` wrapper (both the revision that
  stores a configured safe-field snapshot, called `SecretValueA` below, and the later
  revision with per-field validated accessors, called `SecretValueB`);
* `src/fetcher.ts`                  — the `SecretsFetcher` orchestration.

JavaScript runtime values are modelled by `JSVal`: primitives are immutable, while
`Date`s, `Uint8Array`/`Buffer`s, arrays and plain objects carry an abstract heap
reference (`Nat`).  Copying allocates fresh references from a counter threaded through
the definitions, so "is a fresh copy" and "shares no mutable structure" are expressed
as facts about reference sets.  A JS object field is a `Slot`: `absent` (the key is not
an own property), `entry none` (the key is present with value `undefined`), or
`entry (some v)`.  This keeps the `field in obj` / `typeof v !== "undefined"`
distinction of the source observable.  Arrays and objects hold primitive elements,
matching the shapes of `GetSecretValueCommandOutput` (`VersionStages : string[]`,
`$metadata` with primitive entries).
-/

namespace SecretsJs

/-- A JavaScript primitive value. -/
inductive JSPrim where
  | str (s : String)
  | num (n : Int)
  | jsTrue
  | jsFalse
  | jnull
  deriving DecidableEq, Repr

/-- A JavaScript runtime value of the shapes appearing in `GetSecretValueCommandOutput`.
Mutable structures (`Date`, `Buffer`, arrays, plain objects) carry an abstract heap
reference used to reason about aliasing and defensive copies. -/
inductive JSVal where
  | prim (p : JSPrim)
  | date (ref : Nat) (t : Int)
  | buf (ref : Nat) (bs : List Nat)
  | arr (ref : Nat) (xs : List JSPrim)
  | obj (ref : Nat) (kvs : List (String × JSPrim))
  deriving DecidableEq, Repr

/-- The heap references occurring in a value (at most one: nesting inside arrays and
objects is primitive-only in this model). -/
def JSVal.refs : JSVal → List Nat
  | .prim _ => []
  | .date r _ => [r]
  | .buf r _ => [r]
  | .arr r _ => [r]
  | .obj r _ => [r]

/-- Erase heap references (normalise them to 0), keeping the observable content.
Two values with the same erasure are deeply equal in the `assert.deepStrictEqual`
sense. -/
def JSVal.erase : JSVal → JSVal
  | .prim p => .prim p
  | .date _ t => .date 0 t
  | .buf _ bs => .buf 0 bs
  | .arr _ xs => .arr 0 xs
  | .obj _ kvs => .obj 0 kvs

/-- One field of a JS object: not an own property, present with value `undefined`,
or present with a defined value. -/
inductive Slot where
  | absent
  | entry (v : Option JSVal)
  deriving DecidableEq, Repr

/-- References reachable through a slot. -/
def Slot.refs : Slot → List Nat
  | .entry (some v) => v.refs
  | _ => []

/-- Reference erasure on slots. -/
def Slot.erase : Slot → Slot
  | .entry (some v) => .entry (some v.erase)
  | s => s

/-- The untyped wire response of `GetSecretValue`, with the `$metadata` of
`GetSecretValueCommandOutput`.  `ref` is the identity of the response object itself. -/
structure GetSecretValueResponse where
  ref : Nat
  ARN : Slot
  CreatedDate : Slot
  Name : Slot
  SecretBinary : Slot
  SecretString : Slot
  VersionId : Slot
  VersionStages : Slot
  metadata : Slot
  deriving DecidableEq, Repr

/-- Source: `keyof GetSecretValueResponse` — the names an allow-list may mention. -/
inductive Field where
  | ARN
  | CreatedDate
  | Name
  | SecretBinary
  | SecretString
  | VersionId
  | VersionStages
  deriving DecidableEq, Repr

/-- Property read `input[field]` at the slot level. -/
def getSlot (input : GetSecretValueResponse) : Field → Slot
  | .ARN => input.ARN
  | .CreatedDate => input.CreatedDate
  | .Name => input.Name
  | .SecretBinary => input.SecretBinary
  | .SecretString => input.SecretString
  | .VersionId => input.VersionId
  | .VersionStages => input.VersionStages

/-- The printable name of a field. -/
def Field.name : Field → String
  | .ARN => "ARN"
  | .CreatedDate => "CreatedDate"
  | .Name => "Name"
  | .SecretBinary => "SecretBinary"
  | .SecretString => "SecretString"
  | .VersionId => "VersionId"
  | .VersionStages => "VersionStages"

/-- A safe-fields object: the ordered own properties of the object built by `pick`.
A value of `none` is a property present with value `undefined`. -/
def SafeObj : Type := List (Field × Option JSVal)

instance : DecidableEq SafeObj := by
  unfold SafeObj
  infer_instance

/-- Own-property lookup on a safe-fields object. -/
def lookupF : SafeObj → Field → Option (Option JSVal)
  | [], _ => none
  | (g, v) :: tl, f => if g = f then some v else lookupF tl f

/-- JS property assignment `o[f] = v`: overwrite in place if the key exists
(a JS object holds each key at most once), append otherwise. -/
def setField : SafeObj → Field → Option JSVal → SafeObj
  | [], f, v => [(f, v)]
  | (g, w) :: tl, f, v =>
      if g = f then (f, v) :: tl else (g, w) :: setField tl f v

/-- Source: `ALWAYS_REDACTED` of `src/utils/safe-secret-fields.ts`. -/
def ALWAYS_REDACTED : List Field := [.SecretBinary, .SecretString]

/-- Source: `DEFAULT_SAFE_FIELDS` of `src/utils/safe-secret-fields.ts`. -/
def DEFAULT_SAFE_FIELDS : List Field := [.Name, .VersionId]

/-- Source: `pick` of `src/utils/safe-secret-fields.ts`:
for each requested field, `if (field in input && !ALWAYS_REDACTED.includes(field))
safeFields[field] = input[field]`. -/
def pick (input : GetSecretValueResponse) (fields : List Field) : SafeObj :=
  fields.foldl
    (fun safeFields field =>
      match getSlot input field with
      | .absent => safeFields
      | .entry v =>
          if field ∈ ALWAYS_REDACTED then safeFields
          else setField safeFields field v)
    []

/-- Source: `toSafeSecretFields` of `src/utils/safe-secret-fields.ts`. -/
def toSafeSecretFields (input : GetSecretValueResponse)
    (fields : List Field := DEFAULT_SAFE_FIELDS) : SafeObj :=
  pick input fields

/-- The kinds of `src/errors.ts`, plus `nativeTypeMismatch` for a `TypeError` thrown
by a JS built-in (e.g. `Buffer.from` on an argument of an invalid type), which is not
part of the taxonomy. -/
inductive ErrKind where
  | invalidSecret
  | secretParse
  | unsupportedOperation
  | nativeTypeMismatch
  deriving DecidableEq, Repr

/-- A thrown error: its class, message, and the `details` context object
(`public readonly details : object` on `SecretsError`).  A detail value of `none`
is a property present with value `undefined`. -/
structure SecretsErr where
  kind : ErrKind
  msg : String
  details : List (String × Option JSVal)
  deriving DecidableEq, Repr

/-- Source: `err instanceof InvalidSecretError`: `SecretParseError` and
`UnsupportedOperationError` both extend `InvalidSecretError` in `src/errors.ts`. -/
def SecretsErr.isInvalidSecretError (e : SecretsErr) : Bool :=
  match e.kind with
  | .invalidSecret | .secretParse | .unsupportedOperation => true
  | .nativeTypeMismatch => false

/-- Source: `input.ARN ?? null`. -/
def arnOf (input : GetSecretValueResponse) : JSVal :=
  match input.ARN with
  | .entry (some v) => v
  | _ => .prim .jnull

/-- Source: `new InvalidSecretError(msg, arn)` of the current `errors.ts`:
`super(msg, { arn })` — the context is the single-binding object `{ arn }`. -/
def mkErrArn (k : ErrKind) (msg : String) (arn : JSVal) : SecretsErr :=
  ⟨k, msg, [("arn", some arn)]⟩

/-- Source: `SecretContent` of `src/utils/secret-content.ts`: the tagged union
`{type: "string", SecretString}` / `{type: "binary", SecretBinary}`.  `binC` stores
the given value itself (the classifier performs no copy). -/
inductive SecretContent where
  | strC (SecretString : String)
  | binC (SecretBinary : JSVal)
  deriving DecidableEq, Repr

/-- The `type` discriminator of a `SecretContent`. -/
def SecretContent.typeName : SecretContent → String
  | .strC _ => "string"
  | .binC _ => "binary"

/-- Source: `getSecretContent` of `src/utils/secret-content.ts`.  A `.ok none` result is the
"no content" state (the function returns `null`). -/
def getSecretContent (input : GetSecretValueResponse) :
    Except SecretsErr (Option SecretContent) :=
  match input.SecretString with
  | .entry (some (.prim (.str s))) =>
      match input.SecretBinary with
      | .entry (some _) =>
          .error (mkErrArn .invalidSecret "Both SecretString and SecretBinary defined"
            (arnOf input))
      | _ => .ok (some (.strC s))
  | _ =>
      match input.SecretBinary with
      | .entry (some v) => .ok (some (.binC v))
      | _ => .ok none

/-- UTF-8 bytes of a string, for `Buffer.from(string)`. -/
def strToBytes (s : String) : List Nat :=
  s.toUTF8.toList.map (fun b => b.toNat)

/-- Coercion of an array element to a byte, for `Buffer.from(array)`. -/
def primByte : JSPrim → Nat
  | .num n => (n % 256).toNat
  | _ => 0

/-- Source: `Buffer.from(v)`: a fresh buffer copying a `Uint8Array`, encoding a string, or
coercing an array of numbers; any other argument throws a `TypeError`. -/
def bufferFrom (v : JSVal) (b : Nat) : Except SecretsErr (JSVal × Nat) :=
  match v with
  | .buf _ bs => .ok (.buf b bs, b + 1)
  | .prim (.str s) => .ok (.buf b (strToBytes s), b + 1)
  | .arr _ xs => .ok (.buf b (xs.map primByte), b + 1)
  | _ => .error ⟨.nativeTypeMismatch, "The first argument must be of type string or an instance of Buffer, ArrayBuffer, or Array", []⟩

/-- JS object spread `{...v}` as a key/value list: an object contributes its own
enumerable entries, a string its indexed characters, a buffer its indexed bytes, and
any other primitive or a `Date` contributes nothing. -/
def jsSpreadKvs : JSVal → List (String × JSPrim)
  | .obj _ kvs => kvs
  | .prim (.str s) =>
      (s.data.enum).map (fun ic => (toString ic.1, JSPrim.str ic.2.toString))
  | .buf _ bs =>
      (bs.enum).map (fun ib => (toString ib.1, JSPrim.num (Int.ofNat ib.2)))
  | _ => []

/-- Source: `if (CreatedDate instanceof Date) res["CreatedDate"] = new Date(CreatedDate)`. -/
def copyCreatedDate : Slot → Nat → Slot × Nat
  | .entry (some (.date _ t)), b => (.entry (some (.date b t)), b + 1)
  | _, b => (.absent, b)

/-- Source: `if (typeof SecretBinary !== "undefined") res["SecretBinary"] = Buffer.from(SecretBinary)`. -/
def copySecretBinary : Slot → Nat → Except SecretsErr (Slot × Nat)
  | .entry (some v), b => (bufferFrom v b).map (fun p => (.entry (some p.1), p.2))
  | _, b => .ok (.absent, b)

/-- Source: `if (Array.isArray(VersionStages)) res["VersionStages"] = [...VersionStages]`. -/
def copyVersionStages : Slot → Nat → Slot × Nat
  | .entry (some (.arr _ xs)), b => (.entry (some (.arr b xs)), b + 1)
  | _, b => (.absent, b)

/-- Source: `if (typeof $metadata !== "undefined") res["$metadata"] = { ...$metadata }`. -/
def copyMetadata : Slot → Nat → Slot × Nat
  | .entry (some v), b => (.entry (some (.obj b (jsSpreadKvs v))), b + 1)
  | _, b => (.absent, b)

/-- Source: `deepCopySecretValueCommandOutput` of `src/utils/secret-copier.ts`: destructure
the four structured fields, spread the rest into a fresh object, then re-add each
structured field as a fresh copy when it has its expected shape. -/
def deepCopySecretValueCommandOutput (input : GetSecretValueResponse) (b : Nat) :
    Except SecretsErr (GetSecretValueResponse × Nat) :=
  match copySecretBinary input.SecretBinary (copyCreatedDate input.CreatedDate (b + 1)).2 with
  | .error e => .error e
  | .ok sb =>
      .ok ({ ref := b, ARN := input.ARN, Name := input.Name,
             SecretString := input.SecretString, VersionId := input.VersionId,
             CreatedDate := (copyCreatedDate input.CreatedDate (b + 1)).1,
             SecretBinary := sb.1,
             VersionStages := (copyVersionStages input.VersionStages sb.2).1,
             metadata := (copyMetadata input.metadata
               (copyVersionStages input.VersionStages sb.2).2).1 },
           (copyMetadata input.metadata (copyVersionStages input.VersionStages sb.2).2).2)

/-- The current `SecretValue` of `src/secret-value.ts`: the deep-copied snapshot
(`#input`), the captured `#arn`, and the derived `#content`. -/
structure SecretValue where
  input : GetSecretValueResponse
  arn : JSVal
  content : Option SecretContent
  deriving DecidableEq, Repr

/-- The `SecretValue` constructor: `this.#input = deepCopySecretValueCommandOutput(input);
this.#arn = input.ARN ?? null; this.#content = getSecretContent(input)`.  Note that the
classifier runs on the original `input`, not on the copy. -/
def mkSecretValue (input : GetSecretValueResponse) (b : Nat) :
    Except SecretsErr (SecretValue × Nat) :=
  match deepCopySecretValueCommandOutput input b with
  | .error e => .error e
  | .ok sb =>
      match getSecretContent input with
      | .error e => .error e
      | .ok c => .ok ({ input := sb.1, arn := arnOf input, content := c }, sb.2)

/-- Source: `#mustGetInputString`: `Object.hasOwn` presence check, then the
`typeof value === "string"` verifier. -/
def mustGetInputString (sv : SecretValue) (f : Field) : Except SecretsErr String :=
  match getSlot sv.input f with
  | .absent =>
      .error (mkErrArn .invalidSecret ("Missing " ++ f.name ++ " in response") sv.arn)
  | .entry (some (.prim (.str s))) => .ok s
  | .entry _ =>
      .error (mkErrArn .invalidSecret ("Invalid " ++ f.name ++ " in response") sv.arn)

/-- Source: `get ARN()`. -/
def SecretValue.getARN (sv : SecretValue) : Except SecretsErr String :=
  mustGetInputString sv .ARN

/-- Source: `get Name()`. -/
def SecretValue.getName (sv : SecretValue) : Except SecretsErr String :=
  mustGetInputString sv .Name

/-- Source: `get VersionId()`. -/
def SecretValue.getVersionId (sv : SecretValue) : Except SecretsErr String :=
  mustGetInputString sv .VersionId

/-- Source: `get VersionStages()`: `Array.isArray` verifier, returning the fresh copy
`[...value]`. -/
def SecretValue.getVersionStages (sv : SecretValue) (b : Nat) :
    Except SecretsErr (JSVal × Nat) :=
  match getSlot sv.input .VersionStages with
  | .absent => .error (mkErrArn .invalidSecret "Missing VersionStages in response" sv.arn)
  | .entry (some (.arr _ xs)) => .ok (.arr b xs, b + 1)
  | .entry _ => .error (mkErrArn .invalidSecret "Invalid VersionStages in response" sv.arn)

/-- Source: `get CreatedDate()`: `instanceof Date` verifier, returning the fresh copy
`new Date(value)`. -/
def SecretValue.getCreatedDate (sv : SecretValue) (b : Nat) :
    Except SecretsErr (JSVal × Nat) :=
  match getSlot sv.input .CreatedDate with
  | .absent => .error (mkErrArn .invalidSecret "Missing CreatedDate in response" sv.arn)
  | .entry (some (.date _ t)) => .ok (.date b t, b + 1)
  | .entry _ => .error (mkErrArn .invalidSecret "Invalid CreatedDate in response" sv.arn)

/-- Source: `hasVersionStage(stage)`: `this.#input.VersionStages?.includes(stage) ?? false`.
The deep-copied snapshot holds `VersionStages` either not at all or as an array, so
the optional chain yields `false` in every non-array case. -/
def SecretValue.hasVersionStage (sv : SecretValue) (stage : String) : Bool :=
  match getSlot sv.input .VersionStages with
  | .entry (some (.arr _ xs)) => xs.any (fun p => decide (p = JSPrim.str stage))
  | _ => false

/-- Source: `isAWSCurrentVersion()`. -/
def SecretValue.isAWSCurrentVersion (sv : SecretValue) : Bool :=
  sv.hasVersionStage "AWSCURRENT"

/-- Source: `isAWSPendingVersion()`. -/
def SecretValue.isAWSPendingVersion (sv : SecretValue) : Bool :=
  sv.hasVersionStage "AWSPENDING"

/-- Source: `isAWSPreviousVersion()`. -/
def SecretValue.isAWSPreviousVersion (sv : SecretValue) : Bool :=
  sv.hasVersionStage "AWSPREVIOUS"

/-- Source: `get payloadType()`. -/
def SecretValue.payloadType (sv : SecretValue) : Except SecretsErr String :=
  match sv.content with
  | none => .error (mkErrArn .invalidSecret "Invalid content payload" sv.arn)
  | some c => .ok c.typeName

/-- Source: `bytes()`: `Buffer.from` over the stored content. -/
def SecretValue.bytes (sv : SecretValue) (b : Nat) : Except SecretsErr (JSVal × Nat) :=
  match sv.content with
  | none => .error (mkErrArn .invalidSecret "Invalid content payload" sv.arn)
  | some (.binC v) => bufferFrom v b
  | some (.strC s) => bufferFrom (.prim (.str s)) b

/-- Source: `#mustGetSecretString`. -/
def mustGetSecretString (sv : SecretValue) : Except SecretsErr String :=
  match sv.content with
  | some (.strC s) => .ok s
  | _ => .error (mkErrArn .unsupportedOperation "Cannot convert binary secrets to text" sv.arn)

/-- Source: `text()`. -/
def SecretValue.text (sv : SecretValue) : Except SecretsErr String :=
  mustGetSecretString sv

/-- Source: `raw()`: `deepCopySecretValueCommandOutput(this.#input)`. -/
def SecretValue.raw (sv : SecretValue) (b : Nat) :
    Except SecretsErr (GetSecretValueResponse × Nat) :=
  deepCopySecretValueCommandOutput sv.input b

/-! JSON values:  `JSON.parse` is an external JS built-in; it is modelled as a
parameter `parse : String → Option PureJson` returning the parsed skeleton (`none`
models a thrown `SyntaxError`).  Each call then materialises the skeleton into a
fresh object graph: every composite node gets the address `(base, path)` where
`base` is the allocation counter of the call, so results of distinct calls share no
mutable node. -/

mutual
inductive PureJson where
  | null
  | boolean (b : Bool)
  | num (n : Int)
  | str (s : String)
  | arr (xs : PJList)
  | obj (kvs : PJObj)
inductive PJList where
  | nil
  | cons (hd : PureJson) (tl : PJList)
inductive PJObj where
  | nil
  | cons (k : String) (v : PureJson) (tl : PJObj)
end

mutual
inductive JsonVal where
  | null
  | boolean (b : Bool)
  | num (n : Int)
  | str (s : String)
  | arr (ref : Nat × List Nat) (xs : JVList)
  | obj (ref : Nat × List Nat) (kvs : JVObj)
inductive JVList where
  | nil
  | cons (hd : JsonVal) (tl : JVList)
inductive JVObj where
  | nil
  | cons (k : String) (v : JsonVal) (tl : JVObj)
end

mutual
/-- Materialise a parsed skeleton into a fresh object graph for call `base`. -/
def materialize (base : Nat) : PureJson → List Nat → JsonVal
  | .null, _ => .null
  | .boolean b, _ => .boolean b
  | .num n, _ => .num n
  | .str s, _ => .str s
  | .arr xs, path => .arr (base, path) (materializeList base xs path 0)
  | .obj kvs, path => .obj (base, path) (materializeObj base kvs path 0)
def materializeList (base : Nat) : PJList → List Nat → Nat → JVList
  | .nil, _, _ => .nil
  | .cons hd tl, path, i =>
      .cons (materialize base hd (path ++ [i])) (materializeList base tl path (i + 1))
def materializeObj (base : Nat) : PJObj → List Nat → Nat → JVObj
  | .nil, _, _ => .nil
  | .cons k v tl, path, i =>
      .cons k (materialize base v (path ++ [i])) (materializeObj base tl path (i + 1))
end

mutual
/-- Forget node addresses: the observable (deep-equality) content of a JSON value. -/
def eraseJson : JsonVal → PureJson
  | .null => .null
  | .boolean b => .boolean b
  | .num n => .num n
  | .str s => .str s
  | .arr _ xs => .arr (eraseJList xs)
  | .obj _ kvs => .obj (eraseJObj kvs)
def eraseJList : JVList → PJList
  | .nil => .nil
  | .cons hd tl => .cons (eraseJson hd) (eraseJList tl)
def eraseJObj : JVObj → PJObj
  | .nil => .nil
  | .cons k v tl => .cons k (eraseJson v) (eraseJObj tl)
end

mutual
/-- Addresses of the mutable nodes of a JSON value. -/
def jrefs : JsonVal → List (Nat × List Nat)
  | .null => []
  | .boolean _ => []
  | .num _ => []
  | .str _ => []
  | .arr r xs => r :: jrefsList xs
  | .obj r kvs => r :: jrefsObj kvs
def jrefsList : JVList → List (Nat × List Nat)
  | .nil => []
  | .cons hd tl => jrefs hd ++ jrefsList tl
def jrefsObj : JVObj → List (Nat × List Nat)
  | .nil => []
  | .cons _ v tl => jrefs v ++ jrefsObj tl
end



/-- Source: `json()` of the current `secret-value.ts`: `#mustGetSecretString`, then
`JSON.parse` on every call ("Always re-parse the JSON string"), catching the parse
failure as `SecretParseError`. -/
def SecretValue.json (parse : String → Option PureJson) (sv : SecretValue) (b : Nat) :
    Except SecretsErr (JsonVal × Nat) :=
  match mustGetSecretString sv with
  | .error e => .error e
  | .ok s =>
      match parse s with
      | some p => .ok (materialize b p [], b + 1)
      | none => .error (mkErrArn .secretParse "Could not parse secret as JSON" sv.arn)

/-- The diagnostic representation produced by the custom inspect method: the short
form for `depth <= 0`, otherwise the stylised tag plus an inspected field object. -/
inductive InspectOut where
  | short (tag : String)
  | full (tag : String) (fields : SafeObj)
  deriving DecidableEq

/-- JS property read of a slot: a missing key reads as `undefined`. -/
def propOf : Slot → Option JSVal
  | .entry v => v
  | .absent => none

/-- Source: `this.#content?.type ?? "unknown"`. -/
def SecretValue.contentTypeTag (sv : SecretValue) : String :=
  match sv.content with
  | some c => c.typeName
  | none => "unknown"

/-- The custom inspect method of the current `secret-value.ts`: the tag
`SecretValue(<type>)`, plus `inspect({ Name, VersionId })` destructured from the
snapshot (each key present, possibly `undefined`). -/
def SecretValue.inspect (sv : SecretValue) (depth : Int) : InspectOut :=
  if depth ≤ 0 then .short ("[SecretValue(" ++ sv.contentTypeTag ++ ")]")
  else
    .full ("SecretValue(" ++ sv.contentTypeTag ++ ")")
      [(Field.Name, propOf sv.input.Name), (Field.VersionId, propOf sv.input.VersionId)]

/-! The safe-fields revision of `secret-value.ts` / `errors.ts`: the constructor
takes a redacted snapshot, every error carries `{ ...safeFields }`, the inspect
method prints the snapshot, and `json()` memoises its result. -/

/-- Source: `new InvalidSecretError(msg, safeFields)` of the safe-fields `errors.ts`:
`super(msg, { ...safeFields })`. -/
def mkErrSafe (k : ErrKind) (msg : String) (sf : SafeObj) : SecretsErr :=
  ⟨k, msg, sf.map (fun kv => (kv.1.name, kv.2))⟩

/-- Spread of an arbitrary value into an error-details object, for
`new InvalidSecretError(msg, input.ARN ?? null)` hitting the safe-fields
constructor signature. -/
def spreadDetails (v : JSVal) : List (String × Option JSVal) :=
  (jsSpreadKvs v).map (fun kv => (kv.1, some (JSVal.prim kv.2)))

/-- Source: `getSecretContent` as used by the safe-fields revision: identical classification,
with the ambiguity error built from `input.ARN ?? null`. -/
def getSecretContentA (input : GetSecretValueResponse) :
    Except SecretsErr (Option SecretContent) :=
  match input.SecretString with
  | .entry (some (.prim (.str s))) =>
      match input.SecretBinary with
      | .entry (some _) =>
          .error ⟨.invalidSecret, "Both SecretString and SecretBinary defined",
            spreadDetails (arnOf input)⟩
      | _ => .ok (some (.strC s))
  | _ =>
      match input.SecretBinary with
      | .entry (some v) => .ok (some (.binC v))
      | _ => .ok none

/-- The safe-fields `SecretValue`: shallow-copied `#input`, the redacted
`#safeFields` snapshot, `#arn`, `#content`, and the `#json` memo. -/
structure SecretValueA where
  input : GetSecretValueResponse
  safeFields : SafeObj
  arn : JSVal
  content : Option SecretContent
  jsonCache : Option JsonVal

/-- The safe-fields constructor: `this.#input = { ...input }` (fresh object, shared
field values), `this.#safeFields = safeFields ?? toSafeSecretFields(input)`,
`this.#arn = input.ARN ?? null`, `this.#content = getSecretContent(input)`.  The
`safeFields` argument is the redacted snapshot; every construction path that takes
an allow-list passes `toSafeSecretFields input allowList` here. -/
def mkSecretValueA (input : GetSecretValueResponse) (safeFields : SafeObj) (b : Nat) :
    Except SecretsErr (SecretValueA × Nat) :=
  match getSecretContentA input with
  | .error e => .error e
  | .ok c =>
      .ok ({ input := { input with ref := b }, safeFields := safeFields,
             arn := arnOf input, content := c, jsonCache := none }, b + 1)

/-- Source: `getStringValue()` of the safe-fields revision. -/
def getStringValueA (sv : SecretValueA) : Except SecretsErr String :=
  match sv.content with
  | some (.strC s) => .ok s
  | _ => .error (mkErrSafe .unsupportedOperation "Cannot convert binary secrets to text"
      sv.safeFields)

/-- Source: `text()` of the safe-fields revision. -/
def textA (sv : SecretValueA) : Except SecretsErr String :=
  getStringValueA sv

/-- Source: `json()` of the safe-fields revision: parse once, memoise in `#json`, return the
memoised reference afterwards. -/
def jsonA (parse : String → Option PureJson) (sv : SecretValueA) (b : Nat) :
    Except SecretsErr (JsonVal × SecretValueA × Nat) :=
  match sv.jsonCache with
  | some v => .ok (v, sv, b)
  | none =>
      match getStringValueA sv with
      | .error e => .error e
      | .ok s =>
          match parse s with
          | some p =>
              let v := materialize b p []
              .ok (v, { sv with jsonCache := some v }, b + 1)
          | none => .error (mkErrSafe .secretParse "Could not parse secret as JSON"
              sv.safeFields)

/-- Source: `` `${this.#content?.type}` `` — a missing content renders as `undefined`. -/
def contentTypeTagA (sv : SecretValueA) : String :=
  match sv.content with
  | some c => c.typeName
  | none => "undefined"

/-- The custom inspect method of the safe-fields revision: the tag plus
`inspect(this.#safeFields)`. -/
def inspectA (sv : SecretValueA) (depth : Int) : InspectOut :=
  if depth ≤ 0 then .short ("[SecretValue(" ++ contentTypeTagA sv ++ ")]")
  else .full ("SecretValue(" ++ contentTypeTagA sv ++ ")") sv.safeFields

/-- The request `{ ...opts, SecretId }` handed to the external capability; the
version-selector options are passed through verbatim, so they stay abstract. -/
structure GetSecretValueRequest (Opt : Type) where
  SecretId : String
  opts : Option Opt

/-- Source: `SecretsFetcher#fetch`: call the external `getSecretValue` capability, redact
with the configured safe fields, and wrap the result in a new `SecretValue`.
A capability failure propagates as `.inl`, untouched. -/
def fetchA {ε Opt : Type} (client : GetSecretValueRequest Opt → Except ε GetSecretValueResponse)
    (safeFields : List Field) (secretId : String) (opts : Option Opt) (b : Nat) :
    Except (ε ⊕ SecretsErr) (SecretValueA × Nat) :=
  match client ⟨secretId, opts⟩ with
  | .error e => .error (.inl e)
  | .ok res =>
      match mkSecretValueA res (toSafeSecretFields res safeFields) b with
      | .error e => .error (.inr e)
      | .ok svb => .ok svb

/-- Source: `SecretsFetcher#fetchString`: `const res = await this.fetch(...); return res.text()`. -/
def fetchStringA {ε Opt : Type}
    (client : GetSecretValueRequest Opt → Except ε GetSecretValueResponse)
    (safeFields : List Field) (secretId : String) (opts : Option Opt) (b : Nat) :
    Except (ε ⊕ SecretsErr) String :=
  match fetchA client safeFields secretId opts b with
  | .error e => .error e
  | .ok sv =>
      match textA sv.1 with
      | .error e => .error (.inr e)
      | .ok s => .ok s

/-- Source: `SecretsFetcher#fetchJson`: `const res = await this.fetch(...); return res.json()`. -/
def fetchJsonA {ε Opt : Type} (parse : String → Option PureJson)
    (client : GetSecretValueRequest Opt → Except ε GetSecretValueResponse)
    (safeFields : List Field) (secretId : String) (opts : Option Opt) (b : Nat) :
    Except (ε ⊕ SecretsErr) JsonVal :=
  match fetchA client safeFields secretId opts b with
  | .error e => .error e
  | .ok sv =>
      match jsonA parse sv.1 sv.2 with
      | .error e => .error (.inr e)
      | .ok v => .ok v.1


/-- A response whose `Name` key is present but set to `undefined`. -/
def exC10 : GetSecretValueResponse :=
  { ref := 0, ARN := .absent, CreatedDate := .absent, Name := .entry none,
    SecretBinary := .absent, SecretString := .absent, VersionId := .absent,
    VersionStages := .absent, metadata := .absent }

/-- Constructing a `SecretValue` and immediately reading `payloadType`, as
`new SecretValue(res).payloadType` does. -/
def payloadTypeAfterMk (i : GetSecretValueResponse) (b : Nat) : Except SecretsErr String :=
  match mkSecretValue i b with
  | .error e => .error e
  | .ok sb => sb.1.payloadType

/-- The four structured fields have their TS-declared shapes when present
(`CreatedDate?: Date`, `SecretBinary?: Uint8Array`, `VersionStages?: string[]`,
`$metadata?: object`). -/
def wfStructured (i : GetSecretValueResponse) : Prop :=
  (i.CreatedDate = .absent ∨ ∃ r t, i.CreatedDate = .entry (some (.date r t))) ∧
  (i.SecretBinary = .absent ∨ ∃ r bs, i.SecretBinary = .entry (some (.buf r bs))) ∧
  (i.VersionStages = .absent ∨ ∃ r xs, i.VersionStages = .entry (some (.arr r xs))) ∧
  (i.metadata = .absent ∨ ∃ r kvs, i.metadata = .entry (some (.obj r kvs)))

/-- The string-typed fields hold no mutable structure (a string, `undefined`, or a
missing key), per `ARN?/Name?/SecretString?/VersionId?: string`. -/
def wfStrings (i : GetSecretValueResponse) : Prop :=
  Slot.refs i.ARN = [] ∧ Slot.refs i.Name = [] ∧
  Slot.refs i.SecretString = [] ∧ Slot.refs i.VersionId = []

/-- All heap references of a response: its own identity plus those of its fields. -/
def respRefs (i : GetSecretValueResponse) : List Nat :=
  i.ref :: (Slot.refs i.ARN ++ (Slot.refs i.CreatedDate ++ (Slot.refs i.Name ++
    (Slot.refs i.SecretBinary ++ (Slot.refs i.SecretString ++ (Slot.refs i.VersionId ++
    (Slot.refs i.VersionStages ++ Slot.refs i.metadata)))))))

/-- Reference erasure on a whole response: the observable content compared by
`assert.deepStrictEqual`. -/
def eraseResp (i : GetSecretValueResponse) : GetSecretValueResponse :=
  { ref := 0, ARN := i.ARN.erase, CreatedDate := i.CreatedDate.erase,
    Name := i.Name.erase, SecretBinary := i.SecretBinary.erase,
    SecretString := i.SecretString.erase, VersionId := i.VersionId.erase,
    VersionStages := i.VersionStages.erase, metadata := i.metadata.erase }

/-- Two responses agree on everything except possibly the payload field values. -/
def agreeNonPayload (i1 i2 : GetSecretValueResponse) : Prop :=
  i1.ARN = i2.ARN ∧ i1.CreatedDate = i2.CreatedDate ∧ i1.Name = i2.Name ∧
  i1.VersionId = i2.VersionId ∧ i1.VersionStages = i2.VersionStages ∧
  i1.metadata = i2.metadata

/-- A binary-only response whose buffer lives at heap reference 5. -/
def exC4 : GetSecretValueResponse :=
  { ref := 0, ARN := .absent, CreatedDate := .absent, Name := .absent,
    SecretBinary := .entry (some (.buf 5 [1, 2, 3])), SecretString := .absent,
    VersionId := .absent, VersionStages := .absent, metadata := .absent }

/-- A binary-only response used to witness the amended classifier contract. -/
def exC4w : GetSecretValueResponse :=
  { ref := 1, ARN := .entry (some (.prim (.str "arn:w"))), CreatedDate := .absent,
    Name := .absent, SecretBinary := .entry (some (.buf 7 [9, 8])),
    SecretString := .absent, VersionId := .absent, VersionStages := .absent,
    metadata := .absent }

/-- A payload-free response carrying `Name` and `VersionId`. -/
def exC3 : GetSecretValueResponse :=
  { ref := 0, ARN := .absent, CreatedDate := .absent,
    Name := .entry (some (.prim (.str "db/pw"))), SecretBinary := .absent,
    SecretString := .absent, VersionId := .entry (some (.prim (.str "v1"))),
    VersionStages := .absent, metadata := .absent }

/-- A payload-free response with every structural field present. -/
def exC5 : GetSecretValueResponse :=
  { ref := 0, ARN := .entry (some (.prim (.str "arn:1"))),
    CreatedDate := .entry (some (.date 1 500)),
    Name := .entry (some (.prim (.str "db/pw"))), SecretBinary := .absent,
    SecretString := .absent, VersionId := .entry (some (.prim (.str "v1"))),
    VersionStages := .entry (some (.arr 2 [.str "AWSCURRENT"])), metadata := .absent }


/-- The successfully constructed `SecretValue` for `exC5` at counter 10. -/
def svC5 : SecretValue :=
  { input := { ref := 10, ARN := .entry (some (.prim (.str "arn:1"))),
               CreatedDate := .entry (some (.date 11 500)),
               Name := .entry (some (.prim (.str "db/pw"))),
               SecretBinary := .absent, SecretString := .absent,
               VersionId := .entry (some (.prim (.str "v1"))),
               VersionStages := .entry (some (.arr 12 [.str "AWSCURRENT"])),
               metadata := .absent },
    arn := .prim (.str "arn:1"), content := none }

/-- A response carrying only a `VersionStages` array at heap reference 3. -/
def exC8 : GetSecretValueResponse :=
  { ref := 0, ARN := .absent, CreatedDate := .absent, Name := .absent,
    SecretBinary := .absent, SecretString := .absent, VersionId := .absent,
    VersionStages := .entry (some (.arr 3 [.str "AWSCURRENT"])), metadata := .absent }

/-- The successfully constructed `SecretValue` for `exC8` at counter 0. -/
def svC8 : SecretValue :=
  { input := { ref := 0, ARN := .absent, CreatedDate := .absent, Name := .absent,
               SecretBinary := .absent, SecretString := .absent, VersionId := .absent,
               VersionStages := .entry (some (.arr 1 [.str "AWSCURRENT"])),
               metadata := .absent },
    arn := .prim .jnull, content := none }

/-- The successfully constructed `SecretValue` for `exC3` at counter 0. -/
def svC3 : SecretValue :=
  { input := { ref := 0, ARN := .absent, CreatedDate := .absent,
               Name := .entry (some (.prim (.str "db/pw"))), SecretBinary := .absent,
               SecretString := .absent, VersionId := .entry (some (.prim (.str "v1"))),
               VersionStages := .absent, metadata := .absent },
    arn := .prim .jnull, content := none }

/-- The error `payloadType` raises on `svC3`. -/
def eC3 : SecretsErr :=
  ⟨.invalidSecret, "Invalid content payload", [("arn", some (.prim .jnull))]⟩

/-- A text-only response whose payload is the JSON text `[1]`. -/
def exC6 : GetSecretValueResponse :=
  { ref := 19, ARN := .absent, CreatedDate := .absent, Name := .absent,
    SecretBinary := .absent, SecretString := .entry (some (.prim (.str "[1]"))),
    VersionId := .absent, VersionStages := .absent, metadata := .absent }

/-- The successfully constructed `SecretValue` for `exC6` at counter 20. -/
def svC6 : SecretValue :=
  { input := { ref := 20, ARN := .absent, CreatedDate := .absent, Name := .absent,
               SecretBinary := .absent, SecretString := .entry (some (.prim (.str "[1]"))),
               VersionId := .absent, VersionStages := .absent, metadata := .absent },
    arn := .prim .jnull, content := some (.strC "[1]") }

/-- The parsed skeleton of `[1]`. -/
def pC6 : PureJson := .arr (.cons (.num 1) .nil)

/-- A concrete stand-in for `JSON.parse`, accepting exactly the text `[1]`. -/
def parseC6 : String → Option PureJson :=
  fun s => if s = "[1]" then some pC6 else none


/-- A fully-populated binary response with references 0..4. -/
def exC7 : GetSecretValueResponse :=
  { ref := 0, ARN := .entry (some (.prim (.str "arn:7"))),
    CreatedDate := .entry (some (.date 1 99)),
    Name := .entry (some (.prim (.str "n"))),
    SecretBinary := .entry (some (.buf 2 [7, 8])), SecretString := .absent,
    VersionId := .entry (some (.prim (.str "v"))),
    VersionStages := .entry (some (.arr 3 [.str "AWSCURRENT"])),
    metadata := .entry (some (.obj 4 [("httpStatusCode", .num 200)])) }

/-- The successfully constructed `SecretValue` for `exC7` at counter 10. -/
def svC7 : SecretValue :=
  { input := { ref := 10, ARN := .entry (some (.prim (.str "arn:7"))),
               CreatedDate := .entry (some (.date 11 99)),
               Name := .entry (some (.prim (.str "n"))),
               SecretBinary := .entry (some (.buf 12 [7, 8])),
               SecretString := .absent,
               VersionId := .entry (some (.prim (.str "v"))),
               VersionStages := .entry (some (.arr 13 [.str "AWSCURRENT"])),
               metadata := .entry (some (.obj 14 [("httpStatusCode", .num 200)])) },
    arn := .prim (.str "arn:7"), content := some (.binC (.buf 2 [7, 8])) }

/-- The response `svC7.raw` returns at counter 15. -/
def rawC7 : GetSecretValueResponse :=
  { ref := 15, ARN := .entry (some (.prim (.str "arn:7"))),
    CreatedDate := .entry (some (.date 16 99)),
    Name := .entry (some (.prim (.str "n"))),
    SecretBinary := .entry (some (.buf 17 [7, 8])),
    SecretString := .absent,
    VersionId := .entry (some (.prim (.str "v"))),
    VersionStages := .entry (some (.arr 18 [.str "AWSCURRENT"])),
    metadata := .entry (some (.obj 19 [("httpStatusCode", .num 200)])) }


/-- A text response with a name, used with an allow-list naming the payload. -/
def exC2 : GetSecretValueResponse :=
  { ref := 9, ARN := .absent, CreatedDate := .absent,
    Name := .entry (some (.prim (.str "db"))), SecretBinary := .absent,
    SecretString := .entry (some (.prim (.str "s3cr3t"))), VersionId := .absent,
    VersionStages := .absent, metadata := .absent }

/-- The safe-fields `SecretValue` constructed from `exC2` with the allow-list
`["Name", "SecretString"]` at counter 0. -/
def svC2 : SecretValueA :=
  { input := { ref := 0, ARN := .absent, CreatedDate := .absent,
               Name := .entry (some (.prim (.str "db"))), SecretBinary := .absent,
               SecretString := .entry (some (.prim (.str "s3cr3t"))), VersionId := .absent,
               VersionStages := .absent, metadata := .absent },
    safeFields := [(Field.Name, some (.prim (.str "db")))],
    arn := .prim .jnull, content := some (.strC "s3cr3t"), jsonCache := none }


/-- A concrete external capability that always fails with a remote error, as the
store does for an unknown identifier. -/
def clientC9 : GetSecretValueRequest Unit → Except String GetSecretValueResponse :=
  fun _ => .error "ResourceNotFoundException"

/-- A concrete stand-in for `JSON.parse` that rejects everything. -/
def parseC9 : String → Option PureJson := fun _ => none

/-! Theorems. -/

theorem lookupF_setField (o : SafeObj) (f g : Field) (v : Option JSVal) :
    lookupF (setField o f v) g = if f = g then some v else lookupF o g := by
  induction o with
  | nil =>
    by_cases hfg : f = g <;> simp [setField, lookupF, hfg]
  | cons hd tl ih =>
    obtain ⟨k, w⟩ := hd
    by_cases hk : k = f
    · subst hk
      by_cases hfg : k = g <;> simp [setField, lookupF, hfg]
    · by_cases hg : k = g
      · subst hg
        have hfg : ¬ f = k := fun h => hk h.symm
        simp [setField, lookupF, hk, hfg]
      · simp [setField, lookupF, hk, hg, ih]

/-- Lookup in the redacted projection: a field is carried over exactly when it is
requested, it is an own property of the input, and it is not always-redacted; the
carried value is the raw property value (which may be `undefined`). -/
theorem lookupF_pick (input : GetSecretValueResponse) (fields : List Field) (f : Field) :
    lookupF (pick input fields) f =
      match getSlot input f with
      | .absent => none
      | .entry v =>
          if f ∈ fields ∧ f ∉ ALWAYS_REDACTED then some v else none := by
  suffices h : ∀ acc : SafeObj,
      lookupF
        (fields.foldl
          (fun safeFields field =>
            match getSlot input field with
            | .absent => safeFields
            | .entry v =>
                if field ∈ ALWAYS_REDACTED then safeFields
                else setField safeFields field v)
          acc) f =
        match getSlot input f with
        | .absent => lookupF acc f
        | .entry v =>
            if f ∈ fields ∧ f ∉ ALWAYS_REDACTED then some v else lookupF acc f by
    have := h []
    unfold pick
    rw [this]
    cases getSlot input f with
    | absent => rfl
    | entry v => simp only [lookupF]
  induction fields with
  | nil =>
    intro acc
    cases hslot : getSlot input f <;> simp [hslot]
  | cons hd tl ih =>
    intro acc
    cases hslot : getSlot input hd with
    | absent =>
      simp only [List.foldl_cons, hslot]
      rw [ih acc]
      cases hslot2 : getSlot input f with
      | absent => rfl
      | entry v =>
        simp only []
        by_cases hf : f = hd
        · rw [hf, hslot] at hslot2
          simp at hslot2
        · simp [List.mem_cons, hf]



    | entry w =>
      simp only [List.foldl_cons, hslot]
      by_cases hred : hd ∈ ALWAYS_REDACTED
      · rw [if_pos hred]
        rw [ih acc]
        cases hslot2 : getSlot input f with
        | absent => rfl
        | entry v =>
          simp only []
          by_cases hf : f = hd
          · have h2 : f ∈ ALWAYS_REDACTED := hf ▸ hred
            simp [h2]
          · simp [List.mem_cons, hf]
      · rw [if_neg hred]
        rw [ih (setField acc hd w)]
        cases hslot2 : getSlot input f with
        | absent =>
          simp only []
          rw [lookupF_setField]
          by_cases hf : hd = f
          · rw [hf, hslot2] at hslot
            simp at hslot
          · simp [hf]
        | entry v =>
          simp only []
          rw [lookupF_setField]
          by_cases hf : f = hd
          · have hw : w = v := by
              rw [hf, hslot] at hslot2
              simpa using hslot2
            subst hw
            have h1 : hd = f := hf.symm
            have h2 : f ∉ ALWAYS_REDACTED := hf ▸ hred
            simp [h1, h2]
          · have hne : ¬ hd = f := fun h => hf h.symm
            rw [if_neg hne]
            simp [List.mem_cons, hf]





mutual
theorem eraseJson_materialize (base : Nat) (p : PureJson) (path : List Nat) :
    eraseJson (materialize base p path) = p := by
  cases p with
  | null => rfl
  | boolean b => rfl
  | num n => rfl
  | str s => rfl
  | arr xs =>
      show PureJson.arr (eraseJList (materializeList base xs path 0)) = PureJson.arr xs
      rw [eraseJList_materializeList base xs path 0]
  | obj kvs =>
      show PureJson.obj (eraseJObj (materializeObj base kvs path 0)) = PureJson.obj kvs
      rw [eraseJObj_materializeObj base kvs path 0]
theorem eraseJList_materializeList (base : Nat) (xs : PJList) (path : List Nat) (i : Nat) :
    eraseJList (materializeList base xs path i) = xs := by
  cases xs with
  | nil => rfl
  | cons hd tl =>
      show PJList.cons (eraseJson (materialize base hd (path ++ [i])))
          (eraseJList (materializeList base tl path (i + 1))) = PJList.cons hd tl
      rw [eraseJson_materialize base hd (path ++ [i]),
        eraseJList_materializeList base tl path (i + 1)]
theorem eraseJObj_materializeObj (base : Nat) (kvs : PJObj) (path : List Nat) (i : Nat) :
    eraseJObj (materializeObj base kvs path i) = kvs := by
  cases kvs with
  | nil => rfl
  | cons k v tl =>
      show PJObj.cons k (eraseJson (materialize base v (path ++ [i])))
          (eraseJObj (materializeObj base tl path (i + 1))) = PJObj.cons k v tl
      rw [eraseJson_materialize base v (path ++ [i]),
        eraseJObj_materializeObj base tl path (i + 1)]
end

mutual
theorem jrefs_materialize_base (base : Nat) (p : PureJson) (path : List Nat) :
    ∀ r ∈ jrefs (materialize base p path), r.1 = base := by
  cases p with
  | null => intro r hr; simp [materialize, jrefs] at hr
  | boolean b => intro r hr; simp [materialize, jrefs] at hr
  | num n => intro r hr; simp [materialize, jrefs] at hr
  | str s => intro r hr; simp [materialize, jrefs] at hr
  | arr xs =>
      intro r hr
      simp only [materialize, jrefs, List.mem_cons] at hr
      rcases hr with h | h
      · rw [h]
      · exact jrefsList_materializeList_base base xs path 0 r h
  | obj kvs =>
      intro r hr
      simp only [materialize, jrefs, List.mem_cons] at hr
      rcases hr with h | h
      · rw [h]
      · exact jrefsObj_materializeObj_base base kvs path 0 r h
theorem jrefsList_materializeList_base (base : Nat) (xs : PJList) (path : List Nat) (i : Nat) :
    ∀ r ∈ jrefsList (materializeList base xs path i), r.1 = base := by
  cases xs with
  | nil => intro r hr; simp [materializeList, jrefsList] at hr
  | cons hd tl =>
      intro r hr
      simp only [materializeList, jrefsList, List.mem_append] at hr
      rcases hr with h | h
      · exact jrefs_materialize_base base hd (path ++ [i]) r h
      · exact jrefsList_materializeList_base base tl path (i + 1) r h
theorem jrefsObj_materializeObj_base (base : Nat) (kvs : PJObj) (path : List Nat) (i : Nat) :
    ∀ r ∈ jrefsObj (materializeObj base kvs path i), r.1 = base := by
  cases kvs with
  | nil => intro r hr; simp [materializeObj, jrefsObj] at hr
  | cons k v tl =>
      intro r hr
      simp only [materializeObj, jrefsObj, List.mem_append] at hr
      rcases hr with h | h
      · exact jrefs_materialize_base base v (path ++ [i]) r h
      · exact jrefsObj_materializeObj_base base tl path (i + 1) r h
end

/-- C1: the result of the Safe-Field Redactor contains a field name iff the name is
allow-listed, the raw response has the field as an own property, and the name is not
one of the two payload field names `{SecretString, SecretBinary}`; in particular the
payload fields are excluded for every allow-list, even one that names them. -/
theorem C1_redactor_membership (input : GetSecretValueResponse)
    (fields : List Field) (f : Field) :
    ((lookupF (toSafeSecretFields input fields) f).isSome ↔
      f ∈ fields ∧ getSlot input f ≠ .absent ∧ f ∉ ALWAYS_REDACTED) ∧
    lookupF (toSafeSecretFields input fields) .SecretString = none ∧
    lookupF (toSafeSecretFields input fields) .SecretBinary = none := by
  refine ⟨?_, ?_, ?_⟩
  · unfold toSafeSecretFields
    rw [lookupF_pick]
    cases h : getSlot input f with
    | absent => simp [h]
    | entry v =>
      by_cases hc : f ∈ fields ∧ f ∉ ALWAYS_REDACTED
      · simp [hc]
      · simp only [if_neg hc, Option.isSome_none]
        constructor
        · intro hfalse
          exact absurd hfalse (by simp)
        · rintro ⟨h1, _, h3⟩
          exact absurd ⟨h1, h3⟩ hc
  · unfold toSafeSecretFields
    rw [lookupF_pick]
    have : (Field.SecretString : Field) ∈ ALWAYS_REDACTED := by decide
    cases getSlot input Field.SecretString <;> simp [this]
  · unfold toSafeSecretFields
    rw [lookupF_pick]
    have : (Field.SecretBinary : Field) ∈ ALWAYS_REDACTED := by decide
    cases getSlot input Field.SecretBinary <;> simp [this]

/-- C10: the presence test of the redactor is key-presence, not value-definedness: an
allow-listed, non-redacted field whose key is present on the response with value
`undefined` is still included in the result, with an `undefined` value. -/
theorem C10_presence_not_definedness (input : GetSecretValueResponse)
    (fields : List Field) (f : Field)
    (hpresent : getSlot input f = .entry none)
    (hreq : f ∈ fields) (hallowed : f ∉ ALWAYS_REDACTED) :
    lookupF (toSafeSecretFields input fields) f = some none := by
  unfold toSafeSecretFields
  rw [lookupF_pick, hpresent]
  simp [hreq, hallowed]

/-- Witness for C10 at a response carrying `Name: undefined`. -/
theorem C10_witness :
    lookupF (toSafeSecretFields exC10 DEFAULT_SAFE_FIELDS) .Name = some none :=
  C10_presence_not_definedness exC10 DEFAULT_SAFE_FIELDS .Name rfl (by decide) (by decide)

theorem any_decide_mem (xs : List JSPrim) (q : JSPrim) :
    xs.any (fun p => decide (p = q)) = true ↔ q ∈ xs := by
  rw [List.any_eq_true]
  constructor
  · rintro ⟨x, hx, hdx⟩
    rw [decide_eq_true_eq] at hdx
    exact hdx ▸ hx
  · intro h
    exact ⟨q, h, by simp⟩

/-- Inversion of a successful `SecretValue` construction: the snapshot is the deep
copy of the input (string fields shared, structured fields freshly copied), the arn
is `input.ARN ?? null`, and the content is the classification of the input. -/
theorem mk_inversion (i : GetSecretValueResponse) (b : Nat) (sv : SecretValue) (b' : Nat)
    (h : mkSecretValue i b = .ok (sv, b')) :
    ∃ sbp, copySecretBinary i.SecretBinary (copyCreatedDate i.CreatedDate (b + 1)).2 = .ok sbp ∧
      getSecretContent i = .ok sv.content ∧
      sv.arn = arnOf i ∧
      sv.input = { ref := b, ARN := i.ARN, Name := i.Name,
                   SecretString := i.SecretString, VersionId := i.VersionId,
                   CreatedDate := (copyCreatedDate i.CreatedDate (b + 1)).1,
                   SecretBinary := sbp.1,
                   VersionStages := (copyVersionStages i.VersionStages sbp.2).1,
                   metadata := (copyMetadata i.metadata
                     (copyVersionStages i.VersionStages sbp.2).2).1 } ∧
      b' = (copyMetadata i.metadata (copyVersionStages i.VersionStages sbp.2).2).2 := by
  unfold mkSecretValue at h
  split at h
  · exact absurd h (by simp)
  · rename_i sb hdc
    split at h
    · exact absurd h (by simp)
    · rename_i c hgc
      unfold deepCopySecretValueCommandOutput at hdc
      split at hdc
      · exact absurd hdc (by simp)
      · rename_i sbp hsbp
        refine ⟨sbp, hsbp, ?_⟩
        simp only [Except.ok.injEq] at hdc h
        subst hdc
        simp only [Prod.mk.injEq] at h
        obtain ⟨hsv, hb'⟩ := h
        subst hb'
        subst hsv
        exact ⟨hgc, rfl, rfl, rfl⟩

/-- C4 as stated is refuted here: for a binary-only response whose byte sequence
lives at heap reference 5, the classifier returns a `Binary` variant wrapping the
value at that same reference — the original, not a copy. -/
theorem C4_counterexample :
    getSecretContent exC4 = .ok (some (.binC (.buf 5 [1, 2, 3]))) ∧
    exC4.SecretBinary = .entry (some (.buf 5 [1, 2, 3])) ∧
    JSVal.refs (.buf 5 [1, 2, 3]) = [5] ∧
    Slot.refs exC4.SecretBinary = JSVal.refs (.buf 5 [1, 2, 3]) :=
  ⟨rfl, rfl, rfl, rfl⟩

/-- C4 amended: the classifier contract holds with the binary case weakened to
"wraps the given byte-sequence value itself (the original reference; the defensive
copy happens later, in `bytes()`)": both payloads defined fails with `InvalidSecret`
carrying `{arn}`; text only returns the string verbatim; binary only returns the
stored value unchanged; neither yields the distinguishable no-content state. -/
theorem C4_amended_classifier (i : GetSecretValueResponse) :
    (∀ s v, i.SecretString = .entry (some (.prim (.str s))) →
        i.SecretBinary = .entry (some v) →
        getSecretContent i =
          .error (mkErrArn .invalidSecret "Both SecretString and SecretBinary defined"
            (arnOf i))) ∧
    (∀ s, i.SecretString = .entry (some (.prim (.str s))) →
        (i.SecretBinary = .absent ∨ i.SecretBinary = .entry none) →
        getSecretContent i = .ok (some (.strC s))) ∧
    (∀ v, (i.SecretString = .absent ∨ i.SecretString = .entry none) →
        i.SecretBinary = .entry (some v) →
        getSecretContent i = .ok (some (.binC v))) ∧
    ((i.SecretString = .absent ∨ i.SecretString = .entry none) →
        (i.SecretBinary = .absent ∨ i.SecretBinary = .entry none) →
        getSecretContent i = .ok none) := by
  refine ⟨?_, ?_, ?_, ?_⟩
  · intro s v hs hb
    unfold getSecretContent
    rw [hs, hb]
  · intro s hs hb
    unfold getSecretContent
    rcases hb with hb | hb <;> rw [hs, hb]
  · intro v hs hb
    unfold getSecretContent
    rcases hs with hs | hs <;> rw [hs, hb]
  · intro hs hb
    unfold getSecretContent
    rcases hs with hs | hs <;> rcases hb with hb | hb <;> rw [hs, hb]

/-- Witness for the amended C4 at a concrete binary-only response. -/
theorem C4_witness :
    getSecretContent exC4w = .ok (some (.binC (.buf 7 [9, 8]))) :=
  (C4_amended_classifier exC4w).2.2.1 (.buf 7 [9, 8]) (Or.inl rfl) rfl

/-- Construction from a payload-free response succeeds, and yields exactly the deep
copy of the input with no content. -/
theorem mk_ok_no_payload (i : GetSecretValueResponse) (b : Nat)
    (hss : i.SecretString = .absent) (hsb : i.SecretBinary = .absent) :
    mkSecretValue i b =
      .ok ({ input :=
               { ref := b, ARN := i.ARN, Name := i.Name,
                 SecretString := i.SecretString, VersionId := i.VersionId,
                 CreatedDate := (copyCreatedDate i.CreatedDate (b + 1)).1,
                 SecretBinary := .absent,
                 VersionStages := (copyVersionStages i.VersionStages
                   (copyCreatedDate i.CreatedDate (b + 1)).2).1,
                 metadata := (copyMetadata i.metadata (copyVersionStages i.VersionStages
                   (copyCreatedDate i.CreatedDate (b + 1)).2).2).1 },
             arn := arnOf i, content := none },
           (copyMetadata i.metadata (copyVersionStages i.VersionStages
             (copyCreatedDate i.CreatedDate (b + 1)).2).2).2) := by
  have h1 : getSecretContent i = .ok none := by
    unfold getSecretContent
    rw [hss, hsb]
  have h2 : copySecretBinary i.SecretBinary (copyCreatedDate i.CreatedDate (b + 1)).2 =
      .ok (.absent, (copyCreatedDate i.CreatedDate (b + 1)).2) := by
    rw [hsb]
    rfl
  unfold mkSecretValue deepCopySecretValueCommandOutput
  rw [h2, h1]

/-- C5: a response with neither payload field set still constructs successfully; then
`payloadType`, `bytes()`, `text()` and `json()` all fail with errors of the
`InvalidSecret` family, while the structural accessors still succeed whenever their
fields are present with their expected types. -/
theorem C5_no_payload (i : GetSecretValueResponse) (b : Nat)
    (hss : i.SecretString = .absent) (hsb : i.SecretBinary = .absent) :
    ∃ sv b', mkSecretValue i b = .ok (sv, b') ∧
      sv.content = none ∧
      (∃ e, sv.payloadType = .error e ∧ e.kind = .invalidSecret ∧
        e.isInvalidSecretError = true) ∧
      (∀ c, ∃ e, sv.bytes c = .error e ∧ e.kind = .invalidSecret ∧
        e.isInvalidSecretError = true) ∧
      (∃ e, sv.text = .error e ∧ e.isInvalidSecretError = true) ∧
      (∀ parse c, ∃ e, sv.json parse c = .error e ∧ e.isInvalidSecretError = true) ∧
      (∀ s, i.ARN = .entry (some (.prim (.str s))) → sv.getARN = .ok s) ∧
      (∀ s, i.Name = .entry (some (.prim (.str s))) → sv.getName = .ok s) ∧
      (∀ s, i.VersionId = .entry (some (.prim (.str s))) → sv.getVersionId = .ok s) ∧
      (∀ r xs c, i.VersionStages = .entry (some (.arr r xs)) →
        sv.getVersionStages c = .ok (.arr c xs, c + 1)) ∧
      (∀ r t c, i.CreatedDate = .entry (some (.date r t)) →
        sv.getCreatedDate c = .ok (.date c t, c + 1)) := by
  refine ⟨_, _, mk_ok_no_payload i b hss hsb, rfl, ?_, ?_, ?_, ?_, ?_, ?_, ?_, ?_, ?_⟩
  · exact ⟨mkErrArn .invalidSecret "Invalid content payload" (arnOf i), rfl, rfl, rfl⟩
  · intro c
    exact ⟨mkErrArn .invalidSecret "Invalid content payload" (arnOf i), rfl, rfl, rfl⟩
  · exact ⟨mkErrArn .unsupportedOperation "Cannot convert binary secrets to text" (arnOf i),
      rfl, rfl⟩
  · intro parse c
    exact ⟨mkErrArn .unsupportedOperation "Cannot convert binary secrets to text" (arnOf i),
      rfl, rfl⟩
  · intro s hs
    simp [SecretValue.getARN, mustGetInputString, getSlot, hs]
  · intro s hs
    simp [SecretValue.getName, mustGetInputString, getSlot, hs]
  · intro s hs
    simp [SecretValue.getVersionId, mustGetInputString, getSlot, hs]
  · intro r xs c hs
    simp [SecretValue.getVersionStages, getSlot, hs, copyVersionStages]
  · intro r t c hs
    simp [SecretValue.getCreatedDate, getSlot, hs, copyCreatedDate]

/-- Witness for C5: the scenario response with name, version id, stages and creation
time but no payload. -/
theorem C5_witness :
    exC5.SecretString = .absent ∧ exC5.SecretBinary = .absent ∧
    mkSecretValue exC5 10 = .ok (svC5, 13) ∧
    svC5.getName = .ok "db/pw" ∧ svC5.getARN = .ok "arn:1" := by
  obtain ⟨sv, b', hmk, -, -, -, -, -, harn, hname, -, -, -⟩ :=
    C5_no_payload exC5 10 rfl rfl
  have hmk2 : mkSecretValue exC5 10 = .ok (svC5, 13) := rfl
  rw [hmk2] at hmk
  simp only [Except.ok.injEq, Prod.mk.injEq] at hmk
  obtain ⟨hsv, -⟩ := hmk
  subst hsv
  exact ⟨rfl, rfl, hmk2, hname "db/pw" rfl, harn "arn:1" rfl⟩

/-- C8: `hasVersionStage(tag)` is exactly membership of `tag` in the stored
version-stages array, is `false` (never a failure — it is a total Boolean) when the
field is absent, and the three convenience predicates are `hasVersionStage` at the
three reserved tags. -/
theorem C8_version_stage_predicates (i : GetSecretValueResponse) (b : Nat)
    (sv : SecretValue) (b' : Nat) (tag : String)
    (hmk : mkSecretValue i b = .ok (sv, b')) :
    (sv.hasVersionStage tag = true ↔
      ∃ r xs, getSlot sv.input .VersionStages = .entry (some (.arr r xs)) ∧
        JSPrim.str tag ∈ xs) ∧
    (∀ r xs, i.VersionStages = .entry (some (.arr r xs)) →
      (sv.hasVersionStage tag = true ↔ JSPrim.str tag ∈ xs)) ∧
    (i.VersionStages = .absent → sv.hasVersionStage tag = false) ∧
    sv.isAWSCurrentVersion = sv.hasVersionStage "AWSCURRENT" ∧
    sv.isAWSPendingVersion = sv.hasVersionStage "AWSPENDING" ∧
    sv.isAWSPreviousVersion = sv.hasVersionStage "AWSPREVIOUS" := by
  obtain ⟨sbp, hsbp, hgc, harn, hinput, hb'⟩ := mk_inversion i b sv b' hmk
  have hvs : getSlot sv.input .VersionStages =
      (copyVersionStages i.VersionStages sbp.2).1 := by
    rw [hinput]
    rfl
  refine ⟨?_, ?_, ?_, rfl, rfl, rfl⟩
  · unfold SecretValue.hasVersionStage
    rw [hvs]
    cases hiv : i.VersionStages with
    | absent => simp [copyVersionStages]
    | entry ov =>
      cases ov with
      | none => simp [copyVersionStages]
      | some v =>
        cases v with
        | arr r xs =>
          simp only [copyVersionStages, any_decide_mem, Slot.entry.injEq,
            Option.some.injEq, JSVal.arr.injEq]
          constructor
          · intro h
            exact ⟨sbp.2, xs, ⟨rfl, rfl⟩, h⟩
          · rintro ⟨r', xs', ⟨-, hxs⟩, h⟩
            exact hxs ▸ h
        | prim p => simp [copyVersionStages]
        | date r t => simp [copyVersionStages]
        | buf r bs => simp [copyVersionStages]
        | obj r kvs => simp [copyVersionStages]
  · intro r xs hiv
    unfold SecretValue.hasVersionStage
    rw [hvs, hiv]
    simp [copyVersionStages, any_decide_mem]
  · intro hiv
    unfold SecretValue.hasVersionStage
    rw [hvs, hiv]
    simp [copyVersionStages]

/-- Witness for C8 at a response whose only stage is `AWSCURRENT`. -/
theorem C8_witness :
    mkSecretValue exC8 0 = .ok (svC8, 2) ∧
    svC8.hasVersionStage "AWSCURRENT" = true ∧
    svC8.isAWSCurrentVersion = true ∧
    svC8.hasVersionStage "AWSPREVIOUS" = false := by
  have hmk : mkSecretValue exC8 0 = .ok (svC8, 2) := rfl
  have h := C8_version_stage_predicates exC8 0 svC8 2 "AWSCURRENT" hmk
  have hcur : svC8.hasVersionStage "AWSCURRENT" = true :=
    (h.2.1 3 [.str "AWSCURRENT"] rfl).mpr (by decide)
  refine ⟨hmk, hcur, ?_, by decide⟩
  rw [h.2.2.2.1, hcur]

/-- The details object of an arn-context error. -/
theorem errArn_details (k : ErrKind) (msg : String) (arn : JSVal) :
    (mkErrArn k msg arn).details = [("arn", some arn)] := rfl

/-- C3 as stated is refuted here: `payloadType` on a freshly constructed
`SecretValue` with `Name` and `VersionId` raises an error whose context is the
single-binding object `{arn: null}`, not the SafeFields snapshot
`{Name: "db/pw", VersionId: "v1"}` — an error built from the SafeFields snapshot
would read differently. -/
theorem C3_counterexample :
    payloadTypeAfterMk exC3 0 =
      .error ⟨.invalidSecret, "Invalid content payload", [("arn", some (.prim .jnull))]⟩ ∧
    mkErrSafe .invalidSecret "Invalid content payload"
        (toSafeSecretFields exC3 DEFAULT_SAFE_FIELDS) =
      ⟨.invalidSecret, "Invalid content payload",
        [("Name", some (.prim (.str "db/pw"))), ("VersionId", some (.prim (.str "v1")))]⟩ ∧
    ([("arn", some (JSVal.prim .jnull))] : List (String × Option JSVal)) ≠
      [("Name", some (.prim (.str "db/pw"))), ("VersionId", some (.prim (.str "v1")))] := by
  refine ⟨rfl, rfl, by decide⟩

/-- C3 amended: every taxonomy error raised from within a `SecretValue` accessor of
the current revision carries as its attached context exactly the single-binding
object `{arn: <ARN-or-null>}` — never the raw snapshot, the text payload, or the
binary payload. -/
theorem C3_amended_error_context (i : GetSecretValueResponse) (b : Nat)
    (sv : SecretValue) (b' : Nat) (hmk : mkSecretValue i b = .ok (sv, b')) :
    sv.arn = arnOf i ∧
    (∀ e, sv.payloadType = .error e → e.details = [("arn", some (arnOf i))]) ∧
    (∀ c e, sv.bytes c = .error e → e.isInvalidSecretError = true →
      e.details = [("arn", some (arnOf i))]) ∧
    (∀ e, sv.text = .error e → e.details = [("arn", some (arnOf i))]) ∧
    (∀ parse c e, sv.json parse c = .error e → e.details = [("arn", some (arnOf i))]) ∧
    (∀ e, sv.getARN = .error e → e.details = [("arn", some (arnOf i))]) ∧
    (∀ e, sv.getName = .error e → e.details = [("arn", some (arnOf i))]) ∧
    (∀ e, sv.getVersionId = .error e → e.details = [("arn", some (arnOf i))]) ∧
    (∀ c e, sv.getVersionStages c = .error e → e.details = [("arn", some (arnOf i))]) ∧
    (∀ c e, sv.getCreatedDate c = .error e → e.details = [("arn", some (arnOf i))]) := by
  obtain ⟨sbp, hsbp, hgc, harn, hinput, hb'⟩ := mk_inversion i b sv b' hmk
  refine ⟨harn, ?_, ?_, ?_, ?_, ?_, ?_, ?_, ?_, ?_⟩
  · intro e he
    unfold SecretValue.payloadType at he
    split at he
    · simp only [Except.error.injEq] at he
      subst he
      rw [harn]
      rfl
    · exact absurd he (by simp)
  · intro c e he hinv
    unfold SecretValue.bytes at he
    split at he
    · simp only [Except.error.injEq] at he
      subst he
      rw [harn]
      rfl
    · unfold bufferFrom at he
      split at he
      · exact absurd he (by simp)
      · exact absurd he (by simp)
      · exact absurd he (by simp)
      · simp only [Except.error.injEq] at he
        subst he
        exact absurd hinv (by simp [SecretsErr.isInvalidSecretError])
    · simp [bufferFrom] at he
  · intro e he
    unfold SecretValue.text mustGetSecretString at he
    split at he
    · exact absurd he (by simp)
    · simp only [Except.error.injEq] at he
      subst he
      rw [harn]
      rfl
  · intro parse c e he
    unfold SecretValue.json at he
    split at he
    · rename_i e2 hmg
      unfold mustGetSecretString at hmg
      split at hmg
      · exact absurd hmg (by simp)
      · simp only [Except.error.injEq] at hmg he
        subst hmg
        subst he
        rw [harn]
        rfl
    · rename_i s hmg
      split at he
      · exact absurd he (by simp)
      · simp only [Except.error.injEq] at he
        subst he
        rw [harn]
        rfl
  · intro e he
    unfold SecretValue.getARN mustGetInputString at he
    split at he
    · simp only [Except.error.injEq] at he
      subst he
      rw [harn]
      rfl
    · exact absurd he (by simp)
    · simp only [Except.error.injEq] at he
      subst he
      rw [harn]
      rfl
  · intro e he
    unfold SecretValue.getName mustGetInputString at he
    split at he
    · simp only [Except.error.injEq] at he
      subst he
      rw [harn]
      rfl
    · exact absurd he (by simp)
    · simp only [Except.error.injEq] at he
      subst he
      rw [harn]
      rfl
  · intro e he
    unfold SecretValue.getVersionId mustGetInputString at he
    split at he
    · simp only [Except.error.injEq] at he
      subst he
      rw [harn]
      rfl
    · exact absurd he (by simp)
    · simp only [Except.error.injEq] at he
      subst he
      rw [harn]
      rfl
  · intro c e he
    unfold SecretValue.getVersionStages at he
    split at he
    · simp only [Except.error.injEq] at he
      subst he
      rw [harn]
      rfl
    · exact absurd he (by simp)
    · simp only [Except.error.injEq] at he
      subst he
      rw [harn]
      rfl
  · intro c e he
    unfold SecretValue.getCreatedDate at he
    split at he
    · simp only [Except.error.injEq] at he
      subst he
      rw [harn]
      rfl
    · exact absurd he (by simp)
    · simp only [Except.error.injEq] at he
      subst he
      rw [harn]
      rfl

/-- Witness for the amended C3: the context of the raised error is `{arn: null}`. -/
theorem C3_witness :
    mkSecretValue exC3 0 = .ok (svC3, 1) ∧
    svC3.payloadType = .error eC3 ∧
    eC3.details = [("arn", some (.prim .jnull))] := by
  have hmk : mkSecretValue exC3 0 = .ok (svC3, 1) := rfl
  have h := (C3_amended_error_context exC3 0 svC3 1 hmk).2.1
  exact ⟨hmk, rfl, h eC3 rfl⟩

/-- C6: `json()` re-parses the stored text on every call; two consecutive calls on a
Text-content `SecretValue` whose text parses return results with the same erasure
(deeply equal) built from disjoint fresh heap nodes, so mutating the first result can
never affect the second. -/
theorem C6_json_reparse_independent (i : GetSecretValueResponse) (b : Nat)
    (sv : SecretValue) (b' : Nat) (parse : String → Option PureJson) (s : String)
    (p : PureJson) (c : Nat)
    (hmk : mkSecretValue i b = .ok (sv, b')) (hc : sv.content = some (.strC s))
    (hp : parse s = some p) :
    sv.json parse c = .ok (materialize c p [], c + 1) ∧
    sv.json parse (c + 1) = .ok (materialize (c + 1) p [], c + 2) ∧
    eraseJson (materialize c p []) = eraseJson (materialize (c + 1) p []) ∧
    ∀ r ∈ jrefs (materialize c p []), r ∉ jrefs (materialize (c + 1) p []) := by
  have hmg : mustGetSecretString sv = .ok s := by
    unfold mustGetSecretString
    rw [hc]
  refine ⟨?_, ?_, ?_, ?_⟩
  · simp [SecretValue.json, hmg, hp]
  · simp [SecretValue.json, hmg, hp]
  · rw [eraseJson_materialize, eraseJson_materialize]
  · intro r hr hr2
    have h1 := jrefs_materialize_base c p [] r hr
    have h2 := jrefs_materialize_base (c + 1) p [] r hr2
    omega

/-- Witness for C6 on the text `[1]` with a concrete parse function. -/
theorem C6_witness :
    mkSecretValue exC6 20 = .ok (svC6, 21) ∧
    svC6.json parseC6 100 = .ok (materialize 100 pC6 [], 101) ∧
    svC6.json parseC6 101 = .ok (materialize 101 pC6 [], 102) ∧
    eraseJson (materialize 100 pC6 []) = eraseJson (materialize 101 pC6 []) := by
  have hmk : mkSecretValue exC6 20 = .ok (svC6, 21) := rfl
  have h := C6_json_reparse_independent exC6 20 svC6 21 parseC6 "[1]" pC6 100 hmk rfl rfl
  exact ⟨hmk, h.1, h.2.1, h.2.2.1⟩

theorem copyCreatedDate_spec (s : Slot) (b : Nat)
    (h : s = .absent ∨ ∃ r t, s = .entry (some (.date r t))) :
    (copyCreatedDate s b).1.erase = s.erase ∧
    b ≤ (copyCreatedDate s b).2 ∧
    (∀ r ∈ Slot.refs (copyCreatedDate s b).1, b ≤ r ∧ r < (copyCreatedDate s b).2) ∧
    ((copyCreatedDate s b).1 = .absent ∨
      ∃ r t, (copyCreatedDate s b).1 = .entry (some (.date r t))) := by
  rcases h with h | ⟨r, t, h⟩ <;> subst h
  · exact ⟨rfl, Nat.le_refl b, by simp [copyCreatedDate, Slot.refs], Or.inl rfl⟩
  · refine ⟨rfl, Nat.le_succ b, ?_, Or.inr ⟨b, t, rfl⟩⟩
    intro r' hr'
    simp only [copyCreatedDate, Slot.refs, JSVal.refs, List.mem_singleton] at hr' ⊢
    omega

theorem copyVersionStages_spec (s : Slot) (b : Nat)
    (h : s = .absent ∨ ∃ r xs, s = .entry (some (.arr r xs))) :
    (copyVersionStages s b).1.erase = s.erase ∧
    b ≤ (copyVersionStages s b).2 ∧
    (∀ r ∈ Slot.refs (copyVersionStages s b).1, b ≤ r ∧ r < (copyVersionStages s b).2) ∧
    ((copyVersionStages s b).1 = .absent ∨
      ∃ r xs, (copyVersionStages s b).1 = .entry (some (.arr r xs))) := by
  rcases h with h | ⟨r, xs, h⟩ <;> subst h
  · exact ⟨rfl, Nat.le_refl b, by simp [copyVersionStages, Slot.refs], Or.inl rfl⟩
  · refine ⟨rfl, Nat.le_succ b, ?_, Or.inr ⟨b, xs, rfl⟩⟩
    intro r' hr'
    simp only [copyVersionStages, Slot.refs, JSVal.refs, List.mem_singleton] at hr' ⊢
    omega

theorem copyMetadata_spec (s : Slot) (b : Nat)
    (h : s = .absent ∨ ∃ r kvs, s = .entry (some (.obj r kvs))) :
    (copyMetadata s b).1.erase = s.erase ∧
    b ≤ (copyMetadata s b).2 ∧
    (∀ r ∈ Slot.refs (copyMetadata s b).1, b ≤ r ∧ r < (copyMetadata s b).2) ∧
    ((copyMetadata s b).1 = .absent ∨
      ∃ r kvs, (copyMetadata s b).1 = .entry (some (.obj r kvs))) := by
  rcases h with h | ⟨r, kvs, h⟩ <;> subst h
  · exact ⟨rfl, Nat.le_refl b, by simp [copyMetadata, Slot.refs], Or.inl rfl⟩
  · refine ⟨rfl, Nat.le_succ b, ?_, Or.inr ⟨b, kvs, rfl⟩⟩
    intro r' hr'
    simp only [copyMetadata, Slot.refs, JSVal.refs, List.mem_singleton] at hr' ⊢
    omega

theorem copySecretBinary_spec (s : Slot) (b : Nat)
    (h : s = .absent ∨ ∃ r bs, s = .entry (some (.buf r bs))) :
    ∃ out, copySecretBinary s b = .ok out ∧ out.1.erase = s.erase ∧
      b ≤ out.2 ∧ (∀ r ∈ Slot.refs out.1, b ≤ r ∧ r < out.2) ∧
      (out.1 = .absent ∨ ∃ r bs, out.1 = .entry (some (.buf r bs))) := by
  rcases h with h | ⟨r, bs, h⟩ <;> subst h
  · exact ⟨(.absent, b), rfl, rfl, Nat.le_refl b, by simp [Slot.refs], Or.inl rfl⟩
  · refine ⟨(.entry (some (.buf b bs)), b + 1), rfl, rfl, Nat.le_succ b, ?_,
      Or.inr ⟨b, bs, rfl⟩⟩
    intro r' hr'
    simp only [Slot.refs, JSVal.refs, List.mem_singleton] at hr' ⊢
    omega

/-- The deep copier on a well-shaped response: it succeeds, preserves the observable
content exactly, and every reference of the copy (the new top-level object included)
is freshly allocated from the counter window. -/
theorem deepCopy_spec (i : GetSecretValueResponse) (b : Nat)
    (hw : wfStructured i) (hstr : wfStrings i) :
    ∃ out b2, deepCopySecretValueCommandOutput i b = .ok (out, b2) ∧
      eraseResp out = eraseResp i ∧
      out.ref = b ∧ b < b2 ∧
      (∀ r ∈ respRefs out, b ≤ r ∧ r < b2) ∧
      wfStructured out ∧ wfStrings out := by
  obtain ⟨hcd, hsb, hvs, hmd⟩ := hw
  obtain ⟨hsA, hsN, hsS, hsV⟩ := hstr
  obtain ⟨cdE, cdLe, cdR, cdW⟩ := copyCreatedDate_spec i.CreatedDate (b + 1) hcd
  obtain ⟨sbp, sbEq, sbE, sbLe, sbR, sbW⟩ :=
    copySecretBinary_spec i.SecretBinary (copyCreatedDate i.CreatedDate (b + 1)).2 hsb
  obtain ⟨vsE, vsLe, vsR, vsW⟩ := copyVersionStages_spec i.VersionStages sbp.2 hvs
  obtain ⟨mdE, mdLe, mdR, mdW⟩ :=
    copyMetadata_spec i.metadata (copyVersionStages i.VersionStages sbp.2).2 hmd
  refine ⟨{ ref := b, ARN := i.ARN, Name := i.Name, SecretString := i.SecretString,
            VersionId := i.VersionId,
            CreatedDate := (copyCreatedDate i.CreatedDate (b + 1)).1,
            SecretBinary := sbp.1,
            VersionStages := (copyVersionStages i.VersionStages sbp.2).1,
            metadata := (copyMetadata i.metadata
              (copyVersionStages i.VersionStages sbp.2).2).1 },
          (copyMetadata i.metadata (copyVersionStages i.VersionStages sbp.2).2).2,
          ?_, ?_, rfl, ?_, ?_, ?_, ?_⟩
  · unfold deepCopySecretValueCommandOutput
    rw [sbEq]
  · unfold eraseResp
    simp [GetSecretValueResponse.mk.injEq, cdE, sbE, vsE, mdE]
  · omega
  · intro r hr
    simp only [respRefs, List.mem_cons, List.mem_append, hsA, hsN, hsS, hsV,
      List.mem_nil_iff, or_false, false_or] at hr
    rcases hr with hr | hr | hr | hr | hr
    · subst hr
      omega
    · have := cdR r hr
      omega
    · have := sbR r hr
      omega
    · have := vsR r hr
      omega
    · have := mdR r hr
      omega
  · exact ⟨cdW, sbW, vsW, mdW⟩
  · exact ⟨hsA, hsN, hsS, hsV⟩

/-- The snapshot stored in a constructed `SecretValue` is exactly the deep copy of
the input. -/
theorem mk_snapshot (i : GetSecretValueResponse) (b : Nat) (sv : SecretValue)
    (b' : Nat) (h : mkSecretValue i b = .ok (sv, b')) :
    deepCopySecretValueCommandOutput i b = .ok (sv.input, b') := by
  obtain ⟨sbp, hsbp, -, -, hinput, hb'⟩ := mk_inversion i b sv b' h
  unfold deepCopySecretValueCommandOutput
  rw [hsbp, hinput, hb']

/-- C7: `raw()` returns a response deeply equal to the originally supplied one
(payload fields included), held in a different object, sharing no mutable reference
with either the original or the stored snapshot — so mutating the returned value can
never change what a later `raw()` call (which re-copies and stays deeply equal)
returns. -/
theorem C7_raw_deep_copy (i : GetSecretValueResponse) (b : Nat) (sv : SecretValue)
    (b1 : Nat) (hw : wfStructured i) (hstr : wfStrings i)
    (hrange : ∀ r ∈ respRefs i, r < b)
    (hmk : mkSecretValue i b = .ok (sv, b1)) :
    ∃ out b2, sv.raw b1 = .ok (out, b2) ∧
      eraseResp out = eraseResp i ∧
      out.ref ≠ i.ref ∧
      (∀ r ∈ respRefs out, r ∉ respRefs i) ∧
      (∀ r ∈ respRefs out, r ∉ respRefs sv.input) ∧
      (∃ out2 b3, sv.raw b2 = .ok (out2, b3) ∧ eraseResp out2 = eraseResp out) := by
  have hdc := mk_snapshot i b sv b1 hmk
  obtain ⟨out0, b20, hdc2, hE0, hRef0, hLt0, hR0, hW0, hS0⟩ := deepCopy_spec i b hw hstr
  rw [hdc] at hdc2
  simp only [Except.ok.injEq, Prod.mk.injEq] at hdc2
  obtain ⟨hout0, hb20⟩ := hdc2
  subst hout0
  subst hb20
  obtain ⟨out, b2, hdc3, hE, hRef, hLt, hR, hW, hS⟩ := deepCopy_spec sv.input b1 hW0 hS0
  refine ⟨out, b2, hdc3, hE.trans hE0, ?_, ?_, ?_, ?_⟩
  · have hi : i.ref ∈ respRefs i := by
      simp [respRefs]
    have h1 := hrange i.ref hi
    rw [hRef]
    omega
  · intro r hr hri
    have h1 := hR r hr
    have h2 := hrange r hri
    omega
  · intro r hr hri
    have h1 := hR r hr
    have h2 := hR0 r hri
    omega
  · obtain ⟨out2, b3, hdc4, hE2, -, -, -, -, -⟩ := deepCopy_spec sv.input b2 hW0 hS0
    exact ⟨out2, b3, hdc4, hE2.trans hE.symm⟩


/-- Witness for C7: the returned copy is deeply equal to the supplied response, is a
different object, and shares no reference with it or with the snapshot. -/
theorem C7_witness :
    mkSecretValue exC7 10 = .ok (svC7, 15) ∧
    svC7.raw 15 = .ok (rawC7, 20) ∧
    eraseResp rawC7 = eraseResp exC7 ∧
    rawC7.ref ≠ exC7.ref := by
  have hw : wfStructured exC7 :=
    ⟨Or.inr ⟨1, 99, rfl⟩, Or.inr ⟨2, [7, 8], rfl⟩,
     Or.inr ⟨3, [.str "AWSCURRENT"], rfl⟩,
     Or.inr ⟨4, [("httpStatusCode", .num 200)], rfl⟩⟩
  have hstr : wfStrings exC7 := ⟨rfl, rfl, rfl, rfl⟩
  have hrange : ∀ r ∈ respRefs exC7, r < 10 := by decide
  have hmk : mkSecretValue exC7 10 = .ok (svC7, 15) := rfl
  obtain ⟨out, b2, hraw, herase, href, -, -, -⟩ :=
    C7_raw_deep_copy exC7 10 svC7 15 hw hstr hrange hmk
  have hraw2 : svC7.raw 15 = .ok (rawC7, 20) := rfl
  rw [hraw2] at hraw
  simp only [Except.ok.injEq, Prod.mk.injEq] at hraw
  obtain ⟨hout, -⟩ := hraw
  subst hout
  exact ⟨hmk, hraw2, herase, href⟩


/-- One step of `pick` on an always-redacted field leaves the accumulator unchanged,
whatever the slot of the field holds. -/
theorem pick_step_redacted (i : GetSecretValueResponse) (acc : SafeObj) (f : Field)
    (hr : f ∈ ALWAYS_REDACTED) :
    (match getSlot i f with
      | Slot.absent => acc
      | Slot.entry v => if f ∈ ALWAYS_REDACTED then acc else setField acc f v) = acc := by
  cases getSlot i f <;> simp [hr]

/-- The redacted projection depends only on the non-payload slots. -/
theorem pick_congr (i1 i2 : GetSecretValueResponse) (fields : List Field)
    (h : ∀ f, f ∉ ALWAYS_REDACTED → getSlot i1 f = getSlot i2 f) :
    pick i1 fields = pick i2 fields := by
  suffices hgen : ∀ acc : SafeObj,
      fields.foldl
        (fun safeFields field =>
          match getSlot i1 field with
          | .absent => safeFields
          | .entry v =>
              if field ∈ ALWAYS_REDACTED then safeFields
              else setField safeFields field v) acc =
      fields.foldl
        (fun safeFields field =>
          match getSlot i2 field with
          | .absent => safeFields
          | .entry v =>
              if field ∈ ALWAYS_REDACTED then safeFields
              else setField safeFields field v) acc by
    exact hgen []
  induction fields with
  | nil =>
    intro acc
    rfl
  | cons hd tl ih =>
    intro acc
    simp only [List.foldl_cons]
    by_cases hr : hd ∈ ALWAYS_REDACTED
    · rw [pick_step_redacted i1 acc hd hr, pick_step_redacted i2 acc hd hr]
      exact ih acc
    · rw [h hd hr]
      exact ih _

/-- Responses agreeing off the payload have equal non-redacted slots. -/
theorem agree_getSlot (i1 i2 : GetSecretValueResponse) (h : agreeNonPayload i1 i2) :
    ∀ f, f ∉ ALWAYS_REDACTED → getSlot i1 f = getSlot i2 f := by
  obtain ⟨hA, hC, hN, hV, hS, hM⟩ := h
  intro f hf
  cases f with
  | ARN => exact hA
  | CreatedDate => exact hC
  | Name => exact hN
  | SecretBinary => exact absurd (by decide) hf
  | SecretString => exact absurd (by decide) hf
  | VersionId => exact hV
  | VersionStages => exact hS

/-- Inversion of a successful safe-fields construction. -/
theorem mkA_inversion (i : GetSecretValueResponse) (sf : SafeObj) (b : Nat)
    (sv : SecretValueA) (b' : Nat) (h : mkSecretValueA i sf b = .ok (sv, b')) :
    sv.safeFields = sf ∧ sv.arn = arnOf i ∧ getSecretContentA i = .ok sv.content ∧
    sv.input = { i with ref := b } ∧ sv.jsonCache = none ∧ b' = b + 1 := by
  unfold mkSecretValueA at h
  split at h
  · exact absurd h (by simp)
  · rename_i c hgc
    simp only [Except.ok.injEq, Prod.mk.injEq] at h
    obtain ⟨hsv, hb'⟩ := h
    subst hb'
    subst hsv
    exact ⟨rfl, rfl, hgc, rfl, rfl, rfl⟩

/-- C2: the diagnostic representation of a `SecretValue` constructed with any
allow-list (including one naming the payload fields) is only the
`SecretValue(<content-type>)` tag — plus, at positive depth, the SafeFields
projection, which never carries a payload field; and the representation is invariant
under changing the payload content (for either revision of the inspect method), so it
can never contain the stored payload. -/
theorem C2_inspect_redaction (i : GetSecretValueResponse) (allowList : List Field)
    (b : Nat) (sv : SecretValueA) (b' : Nat) (d : Int)
    (hmk : mkSecretValueA i (toSafeSecretFields i allowList) b = .ok (sv, b')) :
    (d ≤ 0 → inspectA sv d = .short ("[SecretValue(" ++ contentTypeTagA sv ++ ")]")) ∧
    (0 < d → inspectA sv d =
      .full ("SecretValue(" ++ contentTypeTagA sv ++ ")") (toSafeSecretFields i allowList)) ∧
    lookupF (toSafeSecretFields i allowList) .SecretString = none ∧
    lookupF (toSafeSecretFields i allowList) .SecretBinary = none ∧
    (∀ i2 sv2 b2 b2', mkSecretValueA i2 (toSafeSecretFields i2 allowList) b2 = .ok (sv2, b2') →
      agreeNonPayload i i2 → contentTypeTagA sv = contentTypeTagA sv2 →
      inspectA sv d = inspectA sv2 d) ∧
    (∀ j1 j2 c1 c2 t1 t2 u1 u2 (e : Int), mkSecretValue j1 c1 = .ok (t1, u1) →
      mkSecretValue j2 c2 = .ok (t2, u2) → agreeNonPayload j1 j2 →
      t1.contentTypeTag = t2.contentTypeTag →
      SecretValue.inspect t1 e = SecretValue.inspect t2 e) := by
  obtain ⟨hsf1, -, -, -, -, -⟩ :=
    mkA_inversion i (toSafeSecretFields i allowList) b sv b' hmk
  refine ⟨?_, ?_, ?_, ?_, ?_, ?_⟩
  · intro hd
    unfold inspectA
    rw [if_pos hd]
  · intro hd
    have hnd : ¬ d ≤ 0 := by omega
    unfold inspectA
    rw [if_neg hnd, hsf1]
  · unfold toSafeSecretFields
    rw [lookupF_pick]
    have hred : (Field.SecretString : Field) ∈ ALWAYS_REDACTED := by decide
    cases getSlot i Field.SecretString <;> simp [hred]
  · unfold toSafeSecretFields
    rw [lookupF_pick]
    have hred : (Field.SecretBinary : Field) ∈ ALWAYS_REDACTED := by decide
    cases getSlot i Field.SecretBinary <;> simp [hred]
  · intro i2 sv2 b2 b2' hmk2 hagree htag
    obtain ⟨hsf2, -, -, -, -, -⟩ :=
      mkA_inversion i2 (toSafeSecretFields i2 allowList) b2 sv2 b2' hmk2
    have hsf : toSafeSecretFields i allowList = toSafeSecretFields i2 allowList :=
      pick_congr i i2 allowList (agree_getSlot i i2 hagree)
    unfold inspectA
    rw [htag, hsf1, hsf2, hsf]
  · intro j1 j2 c1 c2 t1 t2 u1 u2 e hmk1 hmk2 hagree htag
    obtain ⟨sbp1, -, -, -, hin1, -⟩ := mk_inversion j1 c1 t1 u1 hmk1
    obtain ⟨sbp2, -, -, -, hin2, -⟩ := mk_inversion j2 c2 t2 u2 hmk2
    have hn : t1.input.Name = t2.input.Name := by
      rw [hin1, hin2]
      exact hagree.2.2.1
    have hv : t1.input.VersionId = t2.input.VersionId := by
      rw [hin1, hin2]
      exact hagree.2.2.2.1
    unfold SecretValue.inspect
    rw [htag, hn, hv]

/-- Witness for C2: even with the allow-list `["Name", "SecretString"]`, the
inspected output shows only the `Name` binding and the payload key is absent. -/
theorem C2_witness :
    mkSecretValueA exC2 (toSafeSecretFields exC2 [Field.Name, Field.SecretString]) 0 =
      .ok (svC2, 1) ∧
    inspectA svC2 2 = .full "SecretValue(string)" [(Field.Name, some (.prim (.str "db")))] ∧
    lookupF (toSafeSecretFields exC2 [Field.Name, Field.SecretString]) .SecretString =
      none := by
  have hmk : mkSecretValueA exC2 (toSafeSecretFields exC2 [Field.Name, Field.SecretString]) 0 =
      .ok (svC2, 1) := rfl
  have h := C2_inspect_redaction exC2 [Field.Name, Field.SecretString] 0 svC2 1 2 hmk
  exact ⟨hmk, (h.2.1 (by decide)).trans rfl, h.2.2.1⟩


/-- C9: `fetchString` is exactly `fetch` followed by `text()`, `fetchJson` exactly
`fetch` followed by `json()`, and an error of the external capability propagates
through all three operations unchanged (no catching, wrapping or translation). -/
theorem C9_fetcher_compositions {ε Opt : Type}
    (client : GetSecretValueRequest Opt → Except ε GetSecretValueResponse)
    (parse : String → Option PureJson) (safeFields : List Field)
    (secretId : String) (opts : Option Opt) (b : Nat) :
    (fetchStringA client safeFields secretId opts b =
      match fetchA client safeFields secretId opts b with
      | .error e => .error e
      | .ok sv =>
          match textA sv.1 with
          | .error e => .error (.inr e)
          | .ok s => .ok s) ∧
    (fetchJsonA parse client safeFields secretId opts b =
      match fetchA client safeFields secretId opts b with
      | .error e => .error e
      | .ok sv =>
          match jsonA parse sv.1 sv.2 with
          | .error e => .error (.inr e)
          | .ok v => .ok v.1) ∧
    (∀ e, client ⟨secretId, opts⟩ = .error e →
      fetchA client safeFields secretId opts b = .error (.inl e) ∧
      fetchStringA client safeFields secretId opts b = .error (.inl e) ∧
      fetchJsonA parse client safeFields secretId opts b = .error (.inl e)) := by
  refine ⟨rfl, rfl, ?_⟩
  intro e he
  have hf : fetchA client safeFields secretId opts b = .error (.inl e) := by
    unfold fetchA
    rw [he]
  refine ⟨hf, ?_, ?_⟩
  · unfold fetchStringA
    rw [hf]
  · unfold fetchJsonA
    rw [hf]

/-- Witness for C9: a not-found error of the external capability surfaces unchanged
through `fetch`, `fetchString` and `fetchJson`. -/
theorem C9_witness :
    clientC9 ⟨"id", none⟩ = .error "ResourceNotFoundException" ∧
    fetchA clientC9 DEFAULT_SAFE_FIELDS "id" none 0 =
      .error (.inl "ResourceNotFoundException") ∧
    fetchStringA clientC9 DEFAULT_SAFE_FIELDS "id" none 0 =
      .error (.inl "ResourceNotFoundException") ∧
    fetchJsonA parseC9 clientC9 DEFAULT_SAFE_FIELDS "id" none 0 =
      .error (.inl "ResourceNotFoundException") := by
  have h := (C9_fetcher_compositions clientC9 parseC9 DEFAULT_SAFE_FIELDS "id" none 0).2.2
    "ResourceNotFoundException" rfl
  exact ⟨rfl, h.1, h.2.1, h.2.2⟩

end SecretsJs
